import Mathlib

/-!
Verification of GlacierScript (glacierscript.py): a shallow embedding of the
script's pure computational core - unit conversion, entropy combination,
UTXO selection, withdrawal fee/change arithmetic, destination pruning and QR
chunking - with theorems settling the specification claims.

Python `Decimal` values are modelled as exact rationals.  Every Decimal the
script manipulates is produced by `quantize(Decimal("0.00000001"))`
(round-half-even to 8 decimal places) or by exact ring arithmetic on such
values; all magnitudes stay far below the 28 significant digits of the
default Decimal context, so context rounding never fires and the rational
model is exact.  Python float literals (`1e-8` on the change floor, `.005`
for MAX_FEE) are modelled by the exact rational value of the IEEE-754 double
they denote, because Python compares a Decimal with a float exactly, by
value.
-/

namespace GlacierScript

/-- Exact value of the Python float literal `1e-8` (line 848 of
glacierscript.py): the IEEE-754 double nearest 10^-8, which is
3022314549036573 / 2^78, strictly between 10^-8 and 2 * 10^-8. -/
def FLOAT_1E8 : ℚ := 3022314549036573 / 302231454903657293676544

/-- Exact value of the Python float literal `.005` (MAX_FEE, line 495 of
glacierscript.py): the IEEE-754 double nearest 0.005, which is
5764607523034235 / 2^60, strictly between 500000/10^8 and 500001/10^8. -/
def MAX_FEE : ℚ := 5764607523034235 / 1152921504606846976

/-- Round a rational to the nearest integer, ties to even: the rounding mode
(ROUND_HALF_EVEN) used by `Decimal.quantize` in the default context. -/
def roundHalfEven (q : ℚ) : ℤ :=
  if q - ⌊q⌋ < 1/2 then ⌊q⌋
  else if 1/2 < q - ⌊q⌋ then ⌊q⌋ + 1
  else if Even ⌊q⌋ then ⌊q⌋ else ⌊q⌋ + 1

/-- Model of `value.quantize(SATOSHI_PLACES)`: round to a multiple of 10^-8,
ties to even. -/
def quantizeSat (q : ℚ) : ℚ := (roundHalfEven (q * 100000000) : ℚ) / 100000000

/-- Model of Python `int()` applied to a Decimal: truncation toward zero. -/
def pyInt (q : ℚ) : ℤ := if q < 0 then ⌈q⌉ else ⌊q⌋

/-- Embedding of `satoshi_to_btc` (glacierscript.py lines 66-74):
`Decimal(satoshi) / Decimal(100000000)` followed by
`.quantize(SATOSHI_PLACES)`. -/
def satoshi_to_btc (satoshi : ℤ) : ℚ :=
  quantizeSat ((satoshi : ℚ) / 100000000)

/-- Embedding of `btc_to_satoshi` (glacierscript.py lines 77-85):
`int(btc * 100000000)`. -/
def btc_to_satoshi (btc : ℚ) : ℤ := pyInt (btc * 100000000)

/-- A rational lying on the satoshi grid: an exact multiple of 10^-8.  All
Decimal amounts flowing through the withdrawal arithmetic have this form. -/
def SatMultiple (q : ℚ) : Prop := ∃ n : ℤ, q = (n : ℚ) / 100000000

theorem roundHalfEven_intCast (n : ℤ) : roundHalfEven (n : ℚ) = n := by
  unfold roundHalfEven
  rw [Int.floor_intCast]
  simp

theorem pyInt_intCast (n : ℤ) : pyInt (n : ℚ) = n := by
  unfold pyInt
  split <;> simp

theorem quantizeSat_satMultiple (q : ℚ) : SatMultiple (quantizeSat q) :=
  ⟨roundHalfEven (q * 100000000), rfl⟩

theorem quantizeSat_of_satMultiple {q : ℚ} (h : SatMultiple q) :
    quantizeSat q = q := by
  obtain ⟨n, rfl⟩ := h
  unfold quantizeSat
  rw [div_mul_cancel₀ _ (by norm_num : (100000000 : ℚ) ≠ 0),
    roundHalfEven_intCast]

theorem SatMultiple.sub {a b : ℚ} (ha : SatMultiple a) (hb : SatMultiple b) :
    SatMultiple (a - b) := by
  obtain ⟨m, rfl⟩ := ha
  obtain ⟨n, rfl⟩ := hb
  exact ⟨m - n, by push_cast; ring⟩

theorem satoshi_to_btc_eq (s : ℤ) : satoshi_to_btc s = (s : ℚ) / 100000000 :=
  quantizeSat_of_satMultiple ⟨s, rfl⟩

/-- On the satoshi grid, comparison against the float literal `1e-8` holds
exactly when the amount is at most one satoshi, because the double denoted by
`1e-8` lies strictly between one and two satoshis. -/
theorem sat_lt_float1e8_iff (k : ℤ) :
    ((k : ℚ) / 100000000 < FLOAT_1E8) ↔ k ≤ 1 := by
  rw [div_lt_iff (by norm_num : (0 : ℚ) < 100000000)]
  constructor
  · intro h
    by_contra hk
    have h2 : (2 : ℚ) ≤ (k : ℚ) := by exact_mod_cast (by omega : (2 : ℤ) ≤ k)
    have hb : FLOAT_1E8 * 100000000 < 2 := by norm_num [FLOAT_1E8]
    linarith
  · intro h
    have h1 : (k : ℚ) ≤ 1 := by exact_mod_cast h
    have hb : (1 : ℚ) < FLOAT_1E8 * 100000000 := by norm_num [FLOAT_1E8]
    linarith

/-- On the satoshi grid, comparison against the float literal `.005` holds
exactly when the amount exceeds 500000 satoshis (0.005 BTC), because the
double denoted by `.005` lies strictly between 500000 and 500001 satoshis. -/
theorem maxfee_lt_sat_iff (k : ℤ) :
    (MAX_FEE < (k : ℚ) / 100000000) ↔ 500000 < k := by
  rw [lt_div_iff (by norm_num : (0 : ℚ) < 100000000)]
  constructor
  · intro h
    by_contra hk
    have h1 : (k : ℚ) ≤ 500000 := by exact_mod_cast (by omega : k ≤ 500000)
    have hb : (500000 : ℚ) < MAX_FEE * 100000000 := by norm_num [MAX_FEE]
    linarith
  · intro h
    have h1 : (500001 : ℚ) ≤ (k : ℚ) := by
      exact_mod_cast (by omega : (500001 : ℤ) ≤ k)
    have hb : MAX_FEE * 100000000 < 500001 := by norm_num [MAX_FEE]
    linarith

/-- C10: for every satoshi amount s with 0 ≤ s ≤ 2.1e15 (the 21-million-BTC
supply bound), converting s to a BTC Decimal with `satoshi_to_btc` and back
with `btc_to_satoshi` is lossless: the unit conversion introduces no
rounding error. -/
theorem satoshi_btc_roundtrip (s : ℤ) (h0 : 0 ≤ s)
    (h1 : s ≤ 2100000000000000) :
    btc_to_satoshi (satoshi_to_btc s) = s := by
  rw [satoshi_to_btc_eq]
  unfold btc_to_satoshi
  rw [div_mul_cancel₀ _ (by norm_num : (100000000 : ℚ) ≠ 0), pyInt_intCast]

/-- Witness for C10 at the concrete satoshi amount 123456789. -/
theorem satoshi_btc_roundtrip_witness :
    btc_to_satoshi (satoshi_to_btc 123456789) = 123456789 :=
  satoshi_btc_roundtrip 123456789 (by decide) (by decide)

/-!
Entropy combination: `xor_hex_strings` (glacierscript.py lines 260-277).
`int(s, 16)` on a pure digit string is modelled by a left fold over the
characters; it fails (ValueError) on an empty string or a non-hex character.
`"{:0{}x}".format(xored, len(str1))` is modelled by `formatHexPad`:
lowercase hex digits, left-padded with zeros to the requested width.
-/

/-- Numeric value of one hexadecimal digit character (0-9, a-f, A-F), the
digits `int(s, 16)` accepts inside a digit string. -/
def hexDigitVal (c : Char) : Option ℕ :=
  if '0' ≤ c ∧ c ≤ '9' then some (c.toNat - '0'.toNat)
  else if 'a' ≤ c ∧ c ≤ 'f' then some (c.toNat - 'a'.toNat + 10)
  else if 'A' ≤ c ∧ c ≤ 'F' then some (c.toNat - 'A'.toNat + 10)
  else none

/-- One step of parsing a hex string: accumulate a digit, or fail. -/
def hexStep (acc : Option ℕ) (c : Char) : Option ℕ :=
  match acc, hexDigitVal c with
  | some a, some d => some (16 * a + d)
  | _, _ => none

/-- Model of Python `int(s, 16)` on a string of bare hex digits: `none`
models the ValueError raised on an empty string or an illegal character. -/
def int16 (s : String) : Option ℕ :=
  if s.data = [] then none else s.data.foldl hexStep (some 0)

/-- A valid hex-digit string: nonempty, every character a hex digit. -/
def ValidHex (s : String) : Prop :=
  s.data ≠ [] ∧ ∀ c ∈ s.data, (hexDigitVal c).isSome

/-- Model of `"{:0{}x}".format(n, width)`: minimal lowercase hex digits of
`n`, left-padded with `'0'` to at least `width` characters. -/
def formatHexPad (n width : ℕ) : String :=
  String.mk (List.replicate (width - (Nat.toDigits 16 n).length) '0' ++
    Nat.toDigits 16 n)

/-- Embedding of `xor_hex_strings` (glacierscript.py lines 260-277): raises
(none) on unequal lengths or unparsable input; otherwise formats the XOR of
the two parsed values at the width of the first string. -/
def xor_hex_strings (str1 str2 : String) : Option String :=
  if str1.length ≠ str2.length then none
  else match int16 str1, int16 str2 with
    | some a, some b => some (formatHexPad (a ^^^ b) str1.length)
    | _, _ => none

theorem hexFold_some :
    ∀ (l : List Char), (∀ c ∈ l, (hexDigitVal c).isSome) → ∀ a : ℕ,
      ∃ n, l.foldl hexStep (some a) = some n := by
  intro l
  induction l with
  | nil => exact fun _ a => ⟨a, rfl⟩
  | cons c l ih =>
    intro h a
    obtain ⟨d, hd⟩ := Option.isSome_iff_exists.mp (h c (by simp))
    have hstep : hexStep (some a) c = some (16 * a + d) := by
      simp [hexStep, hd]
    rw [List.foldl_cons, hstep]
    exact ih (fun x hx => h x (by simp [hx])) _

theorem int16_valid {s : String} (h : ValidHex s) : ∃ n, int16 s = some n := by
  unfold int16
  rw [if_neg h.1]
  exact hexFold_some s.data h.2 0

theorem xor_hex_strings_eq {A B : String} {a b : ℕ}
    (hlen : A.length = B.length) (ha : int16 A = some a)
    (hb : int16 B = some b) :
    xor_hex_strings A B = some (formatHexPad (a ^^^ b) A.length) := by
  unfold xor_hex_strings
  rw [if_neg (by simp [hlen]), ha, hb]

theorem length_data (s : String) : s.data.length = s.length := rfl

/-- C5: for valid hex-digit strings A and B of equal length, the entropy
combiner `xor_hex_strings` is commutative, and combining any valid hex
digest with itself yields the all-zero digest of the same length. -/
theorem xor_hex_comm_self (A B : String) (hA : ValidHex A) (hB : ValidHex B)
    (hlen : A.length = B.length) :
    xor_hex_strings A B = xor_hex_strings B A ∧
    xor_hex_strings A A = some (String.mk (List.replicate A.length '0')) := by
  obtain ⟨a, ha⟩ := int16_valid hA
  obtain ⟨b, hb⟩ := int16_valid hB
  constructor
  · rw [xor_hex_strings_eq hlen ha hb, xor_hex_strings_eq hlen.symm hb ha,
      Nat.xor_comm, hlen]
  · rw [xor_hex_strings_eq rfl ha ha, Nat.xor_self]
    have h1 : 1 ≤ A.length := by
      have := List.length_pos.mpr hA.1
      rw [length_data] at this
      omega
    obtain ⟨m, hm⟩ : ∃ m, A.length = m + 1 := ⟨A.length - 1, by omega⟩
    have hdig : Nat.toDigits 16 0 = ['0'] := by decide
    unfold formatHexPad
    rw [hdig, hm]
    simp [List.replicate_succ']

/-- Witness for C5 at the concrete digests "ab" and "12". -/
theorem xor_hex_comm_self_witness :
    xor_hex_strings "ab" "12" = xor_hex_strings "12" "ab" ∧
    xor_hex_strings "ab" "ab" =
      some (String.mk (List.replicate "ab".length '0')) :=
  xor_hex_comm_self "ab" "12" ⟨by decide, by decide⟩ ⟨by decide, by decide⟩
    rfl

/-!
UTXO selection (`get_utxos`, glacierscript.py lines 391-408) and unsigned
transaction assembly (`create_unsigned_transaction`, lines 411-443).
Decoded transactions are modelled structurally: the fields the code reads
("txid", "vout", each output's "n", "value" and "scriptPubKey" with its
optional "address" and "hex") become structure fields; a missing "address"
key is `none`.  Dictionary values in the destinations mapping are either
Python ints (the zero placeholders installed by `withdraw_interactive`
before amounts are known) or strings (`str(...)` renderings); the pruning
test `val != '0'` compares against the one-character string "0", and an int
never equals a str in Python.
-/

structure ScriptPubKey where
  address : Option String
  hex : String
deriving DecidableEq

structure TxOut where
  n : ℕ
  value : ℚ
  scriptPubKey : ScriptPubKey
deriving DecidableEq

structure DecodedTx where
  txid : String
  vout : List TxOut
deriving DecidableEq

/-- Embedding of `get_utxos` (lines 391-408): iterate the transaction's
outputs, silently skip any output whose scriptPubKey lacks an address field,
append those whose address equals the target. -/
def get_utxos (tx : DecodedTx) (address : String) : List TxOut :=
  tx.vout.foldl
    (fun utxos output =>
      match output.scriptPubKey.address with
      | none => utxos
      | some a => if address = a then utxos ++ [output] else utxos) []

/-- The selection predicate: the output's locking script carries a resolved
address equal to the target. -/
def utxoMatches (address : String) (output : TxOut) : Bool :=
  match output.scriptPubKey.address with
  | some a => address = a
  | none => false

theorem utxoMatches_iff (address : String) (o : TxOut) :
    utxoMatches address o = true ↔ o.scriptPubKey.address = some address := by
  unfold utxoMatches
  cases ho : o.scriptPubKey.address with
  | none => simp
  | some a => simp [eq_comm]

theorem get_utxos_aux (address : String) :
    ∀ (l : List TxOut) (acc : List TxOut),
      l.foldl (fun utxos output =>
        match output.scriptPubKey.address with
        | none => utxos
        | some a => if address = a then utxos ++ [output] else utxos) acc
      = acc ++ l.filter (utxoMatches address) := by
  intro l
  induction l with
  | nil => intro acc; simp
  | cons o l ih =>
    intro acc
    rw [List.foldl_cons, List.filter_cons]
    cases ho : o.scriptPubKey.address with
    | none =>
      have hm : utxoMatches address o = false := by simp [utxoMatches, ho]
      simp only [ho, hm, Bool.false_eq_true, if_false]
      rw [ih]
    | some a =>
      by_cases hq : address = a
      · have hm : utxoMatches address o = true := by simp [utxoMatches, ho, hq]
        simp only [ho, hm, if_pos hq, if_true]
        rw [ih]
        simp
      · have hm : utxoMatches address o = false := by simp [utxoMatches, ho, hq]
        simp only [ho, hm, if_neg hq, Bool.false_eq_true, if_false]
        rw [ih]

/-- C7: UTXO selection returns exactly those outputs of the transaction
whose locking script carries a resolved address equal to the target (as a
filter of the declared outputs, in order); every selected output carries the
target address; the result is empty when no output matches.  Outputs without
a resolved address are skipped inside the fold with no error path: the
embedding, like the code, is total. -/
theorem get_utxos_spec (tx : DecodedTx) (address : String) :
    get_utxos tx address = tx.vout.filter (utxoMatches address) ∧
    (∀ u ∈ get_utxos tx address, u.scriptPubKey.address = some address) ∧
    ((∀ u ∈ tx.vout, u.scriptPubKey.address ≠ some address) →
      get_utxos tx address = []) := by
  have hfilter : get_utxos tx address = tx.vout.filter (utxoMatches address) := by
    unfold get_utxos
    rw [get_utxos_aux]
    simp
  refine ⟨hfilter, ?_, ?_⟩
  · intro u hu
    rw [hfilter] at hu
    exact (utxoMatches_iff address u).mp (List.of_mem_filter hu)
  · intro hnone
    rw [hfilter]
    rw [List.filter_eq_nil_iff]
    intro u hu
    rw [Bool.not_eq_true]
    rw [← Bool.not_eq_true, utxoMatches_iff]
    exact hnone u hu

/-- Witness for C7: a transaction holding one matching output, one
non-matching output and one output without an address field yields no UTXO
for an address that matches none of them (discharging the emptiness
hypothesis at a concrete transaction). -/
theorem get_utxos_spec_witness :
    get_utxos
      ⟨"t1", [⟨0, 1, ⟨some "A", "aa"⟩⟩, ⟨1, 2, ⟨none, "bb"⟩⟩,
        ⟨2, 3, ⟨some "B", "cc"⟩⟩]⟩ "C" = [] :=
  (get_utxos_spec ⟨"t1", [⟨0, 1, ⟨some "A", "aa"⟩⟩, ⟨1, 2, ⟨none, "bb"⟩⟩,
    ⟨2, 3, ⟨some "B", "cc"⟩⟩]⟩ "C").2.2 (by decide)

/-- Dictionary values of the destinations mapping: Python ints or strings. -/
inductive DestAmount where
  | int (n : ℤ)
  | str (s : String)
deriving DecidableEq

/-- Python `val == '0'` on an int-or-str value: only the exact one-character
string "0" is equal; an int (even 0) never equals a str. -/
def isLiteralZeroString : DestAmount → Bool
  | .str s => s = "0"
  | .int _ => false

/-- The request assembled for `bitcoin-cli createrawtransaction`: input
references (txid, vout index) and the pruned destination mapping. -/
structure UnsignedTxRequest where
  inputs : List (String × ℕ)
  outputs : List (String × DestAmount)
deriving DecidableEq

/-- Embedding of `create_unsigned_transaction` (lines 411-443): prune
destinations whose value is `'0'` (the literal string), collect
(txid, vout) for every UTXO of the source address, and hand both to the
external signer.  `redeem_script` is accepted and ignored, as in the code. -/
def create_unsigned_transaction (source_address : String)
    (destinations : List (String × DestAmount)) (redeem_script : String)
    (input_txs : List DecodedTx) : UnsignedTxRequest :=
  { inputs := input_txs.foldl (fun inputs tx =>
      inputs ++ (get_utxos tx source_address).map (fun utxo => (tx.txid, utxo.n)))
      []
    outputs := destinations.filter (fun kv => !isLiteralZeroString kv.2) }

/-- C4 counterexample: a destination entry whose amount is the Python
integer 0 — exactly the placeholder value `withdraw_interactive` installs
and `get_fee_interactive` passes to unsigned-transaction construction — is
a zero amount, yet it survives pruning and is included in the request sent
to the external signer, because `0 != '0'` holds in Python. -/
theorem prune_keeps_int_zero :
    (create_unsigned_transaction "src" [("dest", DestAmount.int 0)] "rs"
      []).outputs = [("dest", DestAmount.int 0)] := by decide

/-- C4 amended: exactly the entries whose amount value is the literal
string "0" are removed from the output mapping; every other entry —
including integer-zero placeholders and string renderings of zero such as
"0E-8" — is kept, and the kept entries appear in their original insertion
order (the output mapping is a sublist of the input mapping). -/
theorem create_unsigned_outputs_spec (source : String)
    (destinations : List (String × DestAmount)) (rs : String)
    (txs : List DecodedTx) :
    (create_unsigned_transaction source destinations rs txs).outputs.Sublist
      destinations ∧
    ∀ kv, kv ∈ (create_unsigned_transaction source destinations rs txs).outputs
      ↔ kv ∈ destinations ∧ isLiteralZeroString kv.2 = false := by
  constructor
  · exact List.filter_sublist destinations
  · intro kv
    simp [create_unsigned_transaction, List.mem_filter]

/-!
Fee negotiation (`get_fee_interactive`, glacierscript.py lines 479-527) and
the fee/amount/change finalization of `withdraw_interactive` (lines
820-855).  The interactive loops re-prompt on rejection; the embedding
models one pass of the pure arithmetic each loop body performs on the
operator-supplied numbers.
-/

/-- Outcome of one iteration of the fee loop: a fee above MAX_FEE is
rejected (the loop re-prompts for a new rate); otherwise the fee is
presented for operator confirmation. -/
inductive FeeStep where
  | rejected (fee : ℚ)
  | presented (fee : ℚ)
deriving DecidableEq

/-- Embedding of the fee computation of `get_fee_interactive` (lines
502-520): `fee = size * fee_basis_satoshis_per_byte` converted to BTC by
`satoshi_to_btc`, then compared against the float literal MAX_FEE. -/
def get_fee_step (vsize : ℕ) (rate : ℤ) : FeeStep :=
  if satoshi_to_btc (vsize * rate) > MAX_FEE then
    .rejected (satoshi_to_btc (vsize * rate))
  else
    .presented (satoshi_to_btc (vsize * rate))

theorem sat_div_lt (a b : ℤ) :
    ((a : ℚ) / 100000000 < (b : ℚ) / 100000000) ↔ a < b := by
  rw [div_lt_div_iff (by norm_num) (by norm_num),
    mul_lt_mul_right (by norm_num : (0 : ℚ) < 100000000)]
  exact Int.cast_lt

/-- C6: the negotiated fee is the signed transaction's virtual size times
the satoshis-per-vbyte rate, converted to BTC; it is rejected (new rate
required) exactly when it exceeds 0.005 BTC, and a fee at or below that
ceiling is presented for operator confirmation.  The float literal `.005`
denotes a double strictly between 500000 and 500001 satoshis, so on
satoshi-grid fees the cutoff is exactly 0.005 BTC. -/
theorem fee_ceiling (vsize : ℕ) (rate : ℤ) :
    satoshi_to_btc (vsize * rate) = ((vsize * rate : ℤ) : ℚ) / 100000000 ∧
    ((∃ f, get_fee_step vsize rate = FeeStep.rejected f) ↔
      satoshi_to_btc (vsize * rate) > 5 / 1000) ∧
    (satoshi_to_btc (vsize * rate) ≤ 5 / 1000 →
      get_fee_step vsize rate = FeeStep.presented (satoshi_to_btc (vsize * rate))) := by
  have key : (satoshi_to_btc (vsize * rate) > MAX_FEE) ↔
      (satoshi_to_btc (vsize * rate) > 5 / 1000) := by
    rw [satoshi_to_btc_eq, gt_iff_lt, gt_iff_lt, maxfee_lt_sat_iff]
    have h5 : (5 : ℚ) / 1000 = ((500000 : ℤ) : ℚ) / 100000000 := by norm_num
    rw [h5, sat_div_lt]
  refine ⟨satoshi_to_btc_eq _, ?_, ?_⟩
  · unfold get_fee_step
    by_cases h : satoshi_to_btc (vsize * rate) > MAX_FEE
    · rw [if_pos h]
      exact iff_of_true ⟨_, rfl⟩ (key.mp h)
    · rw [if_neg h]
      constructor
      · rintro ⟨f, hf⟩
        exact absurd hf (by simp)
      · intro hgt
        exact absurd (key.mpr hgt) h
  · intro hle
    unfold get_fee_step
    rw [if_neg]
    intro hgt
    exact absurd (key.mp hgt) (not_lt.mpr hle)

/-- Witness for C6: a 200-vbyte transaction at 100 sat/vbyte gives a fee of
0.0002 BTC, below the ceiling, which is presented for confirmation. -/
theorem fee_ceiling_witness :
    get_fee_step 200 100 = FeeStep.presented (satoshi_to_btc (200 * 100)) :=
  (fee_ceiling 200 100).2.2 (by rw [satoshi_to_btc_eq]; norm_num)

/-- Line 845 of glacierscript.py:
`change_amount = input_amount - withdrawal_amount - fee`. -/
def compute_change (input_amount withdrawal_amount fee : ℚ) : ℚ :=
  input_amount - withdrawal_amount - fee

/-- Lines 847-849: `if change_amount < 1e-8: change_amount = 0`, with the
float literal modelled by its exact double value. -/
def floor_change (change_amount : ℚ) : ℚ :=
  if change_amount < FLOAT_1E8 then 0 else change_amount

/-- Lines 834-839: the effective withdrawal amount — blank input means
withdraw all (`input_amount - fee`); an entered decimal is quantized to
satoshi places. -/
def effective_withdrawal (input_amount fee : ℚ) : Option ℚ → ℚ
  | none => input_amount - fee
  | some entered => quantizeSat entered

/-- Embedding of the fee/amount/change finalization of
`withdraw_interactive` (lines 822-855): fatal exit if the fee exceeds the
total input value (line 826), fatal raise if fee + withdrawal exceeds the
total input value (lines 841-843); otherwise the change is computed and the
sub-`1e-8` floor applied.  Returns the (withdrawal_amount, change_amount)
pair written into the destinations mapping. -/
def finalize_withdrawal (input_amount fee : ℚ) (entered : Option ℚ) :
    Except String (ℚ × ℚ) :=
  if fee > input_amount then
    .error "Your fee is greater than the sum of your unspent transactions"
  else if fee + effective_withdrawal input_amount fee entered > input_amount then
    .error "Output values greater than input value"
  else
    .ok (effective_withdrawal input_amount fee entered,
      floor_change (compute_change input_amount
        (effective_withdrawal input_amount fee entered) fee))

theorem floor_change_one_sat : floor_change (1 / 100000000) = 0 := by
  unfold floor_change
  have h := (sat_lt_float1e8_iff 1).mpr le_rfl
  have h1 : ((1 : ℤ) : ℚ) / 100000000 = 1 / 100000000 := by norm_num
  rw [h1] at h
  rw [if_pos h]

theorem floor_change_two_sat :
    floor_change (2 / 100000000) = 2 / 100000000 := by
  unfold floor_change
  rw [if_neg]
  intro hlt
  have h2 : ((2 : ℤ) : ℚ) / 100000000 < FLOAT_1E8 := by
    have he : ((2 : ℤ) : ℚ) / 100000000 = 2 / 100000000 := by norm_num
    rw [he]
    exact hlt
  exact absurd ((sat_lt_float1e8_iff 2).mp h2) (by omega)

theorem finalize_eval (inp fee x : ℚ) (hx : SatMultiple x)
    (h1 : ¬ fee > inp) (h2 : ¬ fee + x > inp) :
    finalize_withdrawal inp fee (some x)
      = Except.ok (x, floor_change (inp - x - fee)) := by
  have hq : effective_withdrawal inp fee (some x) = x :=
    quantizeSat_of_satMultiple hx
  unfold finalize_withdrawal
  rw [hq, if_neg h1, if_neg h2]
  rfl

/-- The destinations mapping as finalized by `withdraw_interactive` (lines
767-778 and 854-855): the source address was inserted first and the
destination second, so that insertion order; the change value is the Python
int 0 when the floor coerced it (the code assigns the int literal 0) and a
string rendering of the Decimal otherwise; the withdrawal value is always a
string rendering.  `render` abstracts Python `str` on Decimal. -/
def withdraw_addresses (render : ℚ → String) (source dest : String)
    (withdrawal change : ℚ) : List (String × DestAmount) :=
  [(source,
    if change = 0 then DestAmount.int 0 else DestAmount.str (render change)),
   (dest, DestAmount.str (render withdrawal))]

/-- The unsigned-transaction assembly that follows finalization (lines
883-884): performed only when finalization did not raise. -/
def withdraw_build (render : ℚ → String) (source dest redeem_script : String)
    (input_amount fee : ℚ) (entered : Option ℚ) (txs : List DecodedTx) :
    Except String UnsignedTxRequest :=
  match finalize_withdrawal input_amount fee entered with
  | .error e => .error e
  | .ok (w, c) =>
      .ok (create_unsigned_transaction source
        (withdraw_addresses render source dest w c) redeem_script txs)

/-- C2: if the fee exceeds the total input value, or the effective
withdrawal amount plus the fee exceeds the total input value, the plan is
rejected with a fatal error and no unsigned transaction is assembled; under
the complementary precondition finalization succeeds and the change is
computed as totalInput - withdrawalAmount - fee (then subjected to the
floor). -/
theorem withdrawal_guards (render : ℚ → String) (source dest rs : String)
    (txs : List DecodedTx) (inp fee : ℚ) (entered : Option ℚ) :
    ((fee > inp ∨ fee + effective_withdrawal inp fee entered > inp) →
      ∃ e, withdraw_build render source dest rs inp fee entered txs
        = Except.error e) ∧
    (fee ≤ inp → fee + effective_withdrawal inp fee entered ≤ inp →
      finalize_withdrawal inp fee entered =
        Except.ok (effective_withdrawal inp fee entered,
          floor_change (compute_change inp
            (effective_withdrawal inp fee entered) fee)) ∧
      compute_change inp (effective_withdrawal inp fee entered) fee
        = inp - effective_withdrawal inp fee entered - fee) := by
  constructor
  · intro h
    unfold withdraw_build finalize_withdrawal
    by_cases h1 : fee > inp
    · rw [if_pos h1]
      exact ⟨_, rfl⟩
    · have h2 : fee + effective_withdrawal inp fee entered > inp :=
        h.resolve_left h1
      rw [if_neg h1, if_pos h2]
      exact ⟨_, rfl⟩
  · intro h1 h2
    refine ⟨?_, rfl⟩
    unfold finalize_withdrawal
    rw [if_neg (not_lt.mpr h1), if_neg (not_lt.mpr h2)]

/-- Witness for C2: with 1 BTC of inputs and a (nonsensical but accepted
upstream) 2 BTC fee, finalization aborts with a fatal error and no unsigned
transaction is assembled. -/
theorem withdrawal_guards_witness :
    ∃ e, withdraw_build (fun _ => "") "src" "dst" "rs" 1 2 none []
      = Except.error e :=
  (withdrawal_guards (fun _ => "") "src" "dst" "rs" [] 1 2 none).1
    (Or.inl (by norm_num))

/-- C1 counterexample: total input 0.00000003 BTC, negotiated fee
0.00000001 BTC, operator-entered withdrawal 0.00000001 BTC.  The plan is
accepted (no error is raised anywhere), the one-satoshi change is floored
to zero, and the conservation identity input = withdrawal + change + fee
fails: 3 satoshis ≠ 1 + 0 + 1.  No assertion of the identity exists in the
code, and none fires here. -/
theorem value_conservation_counterexample :
    finalize_withdrawal (3 / 100000000) (1 / 100000000)
      (some (1 / 100000000)) = Except.ok (1 / 100000000, 0) ∧
    (3 / 100000000 : ℚ) ≠ 1 / 100000000 + 0 + 1 / 100000000 := by
  constructor
  · rw [finalize_eval _ _ _ ⟨1, by norm_num⟩ (by norm_num) (by norm_num)]
    have h3 : (3 / 100000000 : ℚ) - 1 / 100000000 - 1 / 100000000
        = 1 / 100000000 := by norm_num
    rw [h3, floor_change_one_sat]
  · norm_num

/-- C1 amended: for every accepted plan whose computed change is not
exactly one satoshi, the conservation identity
totalInput = withdrawal + change + fee holds — by construction of the
change, not through any assertion (the code contains none); when the
computed change is exactly one satoshi the floor silently zeroes it and the
identity fails by one satoshi with no raise (see the counterexample). -/
theorem value_conservation (inp fee : ℚ) (entered : Option ℚ)
    (hinp : SatMultiple inp) (hfee : SatMultiple fee) (w c : ℚ)
    (hok : finalize_withdrawal inp fee entered = Except.ok (w, c))
    (hone : compute_change inp (effective_withdrawal inp fee entered) fee
      ≠ 1 / 100000000) :
    inp = w + c + fee := by
  unfold finalize_withdrawal at hok
  by_cases h1 : fee > inp
  · rw [if_pos h1] at hok
    exact absurd hok (by simp)
  by_cases h2 : fee + effective_withdrawal inp fee entered > inp
  · rw [if_neg h1, if_pos h2] at hok
    exact absurd hok (by simp)
  rw [if_neg h1, if_neg h2] at hok
  have hw : w = effective_withdrawal inp fee entered := by
    have := (Except.ok.injEq _ _).mp hok.symm
    exact (Prod.mk.injEq _ _ _ _).mp this |>.1
  have hc : c = floor_change (compute_change inp
      (effective_withdrawal inp fee entered) fee) := by
    have := (Except.ok.injEq _ _).mp hok.symm
    exact (Prod.mk.injEq _ _ _ _).mp this |>.2
  have hWsat : SatMultiple (effective_withdrawal inp fee entered) := by
    cases entered with
    | none => exact hinp.sub hfee
    | some x => exact quantizeSat_satMultiple x
  have hraw : SatMultiple (compute_change inp
      (effective_withdrawal inp fee entered) fee) :=
    (hinp.sub hWsat).sub hfee
  obtain ⟨k, hk⟩ := hraw
  have hraw_eq : compute_change inp (effective_withdrawal inp fee entered) fee
      = inp - effective_withdrawal inp fee entered - fee := rfl
  have hk0 : 0 ≤ k := by
    have hnn : (0 : ℚ) ≤ (k : ℚ) / 100000000 := by
      rw [← hk, hraw_eq]
      have : fee + effective_withdrawal inp fee entered ≤ inp := not_lt.mp h2
      linarith
    have := mul_nonneg hnn (show (0 : ℚ) ≤ 100000000 by norm_num)
    rw [div_mul_cancel₀ _ (by norm_num : (100000000 : ℚ) ≠ 0)] at this
    exact_mod_cast this
  have hk1 : k ≠ 1 := by
    intro h
    apply hone
    rw [hk, h]
    norm_num
  by_cases hksmall : k ≤ 1
  · have hkz : k = 0 := by omega
    have hraw0 : compute_change inp (effective_withdrawal inp fee entered) fee
        = 0 := by rw [hk, hkz]; norm_num
    have hc0 : c = 0 := by
      rw [hc, hraw0]
      unfold floor_change
      rw [if_pos (by rw [show (0 : ℚ) = ((0 : ℤ) : ℚ) / 100000000 by norm_num,
        sat_lt_float1e8_iff]; omega)]
    rw [hw, hc0]
    rw [hraw_eq] at hraw0
    linarith
  · have hnofloor : ¬ (compute_change inp
        (effective_withdrawal inp fee entered) fee < FLOAT_1E8) := by
      rw [hk, sat_lt_float1e8_iff]
      omega
    have hcraw : c = compute_change inp
        (effective_withdrawal inp fee entered) fee := by
      rw [hc]
      unfold floor_change
      rw [if_neg hnofloor]
    rw [hw, hcraw, hraw_eq]
    ring

/-- Witness for C1 (amended): total input 0.00000004 BTC, fee 0.00000001,
withdrawal 0.00000001; the two-satoshi change survives the floor and the
conservation identity holds. -/
theorem value_conservation_witness :
    (4 / 100000000 : ℚ) = 1 / 100000000 + 2 / 100000000 + 1 / 100000000 :=
  value_conservation (4 / 100000000) (1 / 100000000) (some (1 / 100000000))
    ⟨4, by norm_num⟩ ⟨1, by norm_num⟩ (1 / 100000000) (2 / 100000000)
    (by
      rw [finalize_eval _ _ _ ⟨1, by norm_num⟩ (by norm_num) (by norm_num)]
      have h4 : (4 / 100000000 : ℚ) - 1 / 100000000 - 1 / 100000000
          = 2 / 100000000 := by norm_num
      rw [h4, floor_change_two_sat])
    (by
      have hq : effective_withdrawal (4 / 100000000) (1 / 100000000)
          (some (1 / 100000000)) = 1 / 100000000 :=
        quantizeSat_of_satMultiple ⟨1, by norm_num⟩
      rw [compute_change, hq]
      norm_num)

/-- C3: evaluation of the change floor at the failing input, and its exact
behavior on the satoshi grid.  A change of exactly one satoshi (one base
unit, 0.00000001) is coerced to zero — the float literal `1e-8` denotes a
double strictly greater than 10^-8 and Python compares the Decimal change
against it exactly — although the code's own comment ("less than a satoshi
due to weird floating point imprecision") and the specification floor only
sub-base-unit amounts.  On the satoshi grid the floor fires exactly for
amounts of at most one satoshi. -/
theorem change_floor_one_satoshi :
    floor_change (1 / 100000000) = 0 ∧
    ∀ k : ℤ, floor_change ((k : ℚ) / 100000000)
      = if k ≤ 1 then 0 else (k : ℚ) / 100000000 := by
  have hgen : ∀ k : ℤ, floor_change ((k : ℚ) / 100000000)
      = if k ≤ 1 then 0 else (k : ℚ) / 100000000 := by
    intro k
    unfold floor_change
    by_cases hk : k ≤ 1
    · rw [if_pos ((sat_lt_float1e8_iff k).mpr hk), if_pos hk]
    · rw [if_neg (by rw [sat_lt_float1e8_iff]; exact hk), if_neg hk]
  refine ⟨?_, hgen⟩
  have h1 := hgen 1
  norm_num at h1
  exact_mod_cast h1

/-!
QR artifact splitting (`write_and_verify_qr_code`, glacierscript.py lines
558-603).  The embedding captures the pure splitting and naming logic: the
(filename, chunk) list the function writes.  Writing image files, deleting
stale artifacts and the round-trip re-read through zbarimg are
external-collaborator side effects on exactly this list.  `base` and `ext`
are the two pieces of `os.path.splitext(filename)`, so the single-artifact
filename is `base ++ ext`.  Data is a list of characters, as Python
strings are sequences.
-/

/-- Model of `"{:02d}".format(n)`: decimal digits, zero-padded to at least
two characters. -/
def fmt02 (n : ℕ) : String :=
  String.mk (List.replicate (2 - (Nat.toDigits 10 n).length) '0' ++
    Nat.toDigits 10 n)

/-- The chunking loop of lines 586-595: successive slices of `maxLen`
characters until the data is exhausted.  The `maxLen = 0` guard only makes
the recursion total; the code calls it with 4200 or 2800. -/
def chunk_split (maxLen : ℕ) (l : List Char) : List (List Char) :=
  if h : l = [] ∨ maxLen = 0 then []
  else l.take maxLen :: chunk_split maxLen (l.drop maxLen)
termination_by l.length
decreasing_by
  have h1 : l ≠ [] := fun he => h (Or.inl he)
  have h2 : maxLen ≠ 0 := fun he => h (Or.inr he)
  have h3 := List.length_pos.mpr h1
  simp only [List.length_drop]
  omega

/-- Lines 580-581: `MAX_QR_LEN = 4200 if all_upper_case else 2800`, with
`all_upper_case = data.upper() == data`. -/
def max_qr_len (data : List Char) : ℕ :=
  if data.map Char.toUpper = data then 4200 else 2800

/-- Embedding of `write_and_verify_qr_code` (lines 558-603): the artifact
(filename, chunk-data) list.  Data within the threshold yields one artifact
under the original filename; longer data is split into threshold-sized
chunks named `base-<02d index>ext` with indices starting at 1. -/
def write_and_verify_qr_code (base ext : String) (data : List Char) :
    List (String × List Char) :=
  if data.length ≤ max_qr_len data then [(base ++ ext, data)]
  else (chunk_split (max_qr_len data) data).enum.map
    (fun ic => (base ++ "-" ++ fmt02 (ic.1 + 1) ++ ext, ic.2))

theorem chunk_split_join_bounded (maxLen : ℕ) (hm : maxLen ≠ 0) :
    ∀ (n : ℕ) (l : List Char), l.length ≤ n →
      (chunk_split maxLen l).flatten = l := by
  intro n
  induction n with
  | zero =>
    intro l hl
    have : l = [] := List.eq_nil_of_length_eq_zero (by omega)
    subst this
    rw [chunk_split]
    simp
  | succ n ih =>
    intro l hl
    by_cases hnil : l = []
    · subst hnil
      rw [chunk_split]
      simp
    · rw [chunk_split, dif_neg (by simp [hnil, hm])]
      have hpos := List.length_pos.mpr hnil
      have hdrop : (l.drop maxLen).length ≤ n := by
        simp only [List.length_drop]
        omega
      rw [List.flatten_cons, ih (l.drop maxLen) hdrop, List.take_append_drop]

theorem chunk_split_join (maxLen : ℕ) (hm : maxLen ≠ 0) (l : List Char) :
    (chunk_split maxLen l).flatten = l :=
  chunk_split_join_bounded maxLen hm l.length l le_rfl

theorem chunk_split_length_bounded (maxLen : ℕ) (hm : maxLen ≠ 0) :
    ∀ (n : ℕ) (l : List Char), l.length ≤ n →
      (chunk_split maxLen l).length
        = (l.length + maxLen - 1) / maxLen := by
  intro n
  induction n with
  | zero =>
    intro l hl
    have : l = [] := List.eq_nil_of_length_eq_zero (by omega)
    subst this
    rw [chunk_split]
    simp [Nat.div_eq_of_lt (by omega : maxLen - 1 < maxLen)]
  | succ n ih =>
    intro l hl
    by_cases hnil : l = []
    · subst hnil
      rw [chunk_split]
      simp [Nat.div_eq_of_lt (by omega : maxLen - 1 < maxLen)]
    · rw [chunk_split, dif_neg (by simp [hnil, hm])]
      have hpos := List.length_pos.mpr hnil
      have hdrop : (l.drop maxLen).length ≤ n := by
        simp only [List.length_drop]
        omega
      rw [List.length_cons, ih (l.drop maxLen) hdrop]
      simp only [List.length_drop]
      have hrhs : l.length + maxLen - 1 = (l.length - 1) + maxLen := by omega
      rw [hrhs, Nat.add_div_right _ (by omega : 0 < maxLen)]
      by_cases hml : maxLen ≤ l.length
      · have harg : l.length - maxLen + maxLen - 1 = l.length - 1 := by omega
        rw [harg]
      · have h0 : l.length - maxLen = 0 := by omega
        rw [h0]
        rw [Nat.div_eq_of_lt (by omega : 0 + maxLen - 1 < maxLen),
          Nat.div_eq_of_lt (by omega : l.length - 1 < maxLen)]

theorem chunk_split_length (maxLen : ℕ) (hm : maxLen ≠ 0) (l : List Char) :
    (chunk_split maxLen l).length = (l.length + maxLen - 1) / maxLen :=
  chunk_split_length_bounded maxLen hm l.length l le_rfl

theorem max_qr_len_pos (data : List Char) : max_qr_len data ≠ 0 := by
  unfold max_qr_len
  split <;> norm_num

/-- C9: the artifact writer emits exactly one artifact, under the original
filename, when the data length is at most the capacity threshold (4200
characters when the data is unchanged by upper-casing, 2800 otherwise);
otherwise it emits exactly ceil(len/threshold) artifacts whose names carry
the zero-padded two-digit index suffix in order, starting at 01; in every
case the concatenation of the emitted chunks in index order equals the
original data. -/
theorem qr_artifacts_spec (base ext : String) (data : List Char) :
    ((write_and_verify_qr_code base ext data).map Prod.snd).flatten = data ∧
    (write_and_verify_qr_code base ext data).length
      = max 1 ((data.length + max_qr_len data - 1) / max_qr_len data) ∧
    (data.length ≤ max_qr_len data →
      write_and_verify_qr_code base ext data = [(base ++ ext, data)]) ∧
    (max_qr_len data < data.length →
      (write_and_verify_qr_code base ext data).map Prod.fst
        = (List.range ((data.length + max_qr_len data - 1) / max_qr_len data)).map
            (fun i => base ++ "-" ++ fmt02 (i + 1) ++ ext)) := by
  have hm := max_qr_len_pos data
  by_cases hle : data.length ≤ max_qr_len data
  · rw [write_and_verify_qr_code, if_pos hle]
    refine ⟨by simp, ?_, fun _ => rfl, fun hgt => absurd hgt (not_lt.mpr hle)⟩
    have hceil : (data.length + max_qr_len data - 1) / max_qr_len data ≤ 1 := by
      have : data.length + max_qr_len data - 1 < 2 * max_qr_len data := by omega
      have := (Nat.div_lt_iff_lt_mul (by omega : 0 < max_qr_len data)).mpr
        (by omega : data.length + max_qr_len data - 1 < 2 * max_qr_len data)
      omega
    simp [Nat.max_eq_left hceil]
  · rw [write_and_verify_qr_code, if_neg hle]
    have hgt : max_qr_len data < data.length := not_le.mp hle
    have hceil1 : 1 ≤ (data.length + max_qr_len data - 1) / max_qr_len data := by
      rw [Nat.le_div_iff_mul_le (by omega : 0 < max_qr_len data)]
      omega
    have hlen : ((chunk_split (max_qr_len data) data).enum.map
        (fun ic => (base ++ "-" ++ fmt02 (ic.1 + 1) ++ ext, ic.2))).length
        = (data.length + max_qr_len data - 1) / max_qr_len data := by
      rw [List.length_map, List.enum_length, chunk_split_length _ hm]
    refine ⟨?_, ?_, fun h => absurd h (not_le.mpr hgt), fun _ => ?_⟩
    · rw [List.map_map]
      have hsnd : (Prod.snd ∘ fun ic : ℕ × List Char =>
          (base ++ "-" ++ fmt02 (ic.1 + 1) ++ ext, ic.2)) = Prod.snd := rfl
      rw [hsnd, List.enum_map_snd, chunk_split_join _ hm]
    · rw [hlen, Nat.max_eq_right hceil1]
    · rw [List.map_map]
      have hfst : (Prod.fst ∘ fun ic : ℕ × List Char =>
          (base ++ "-" ++ fmt02 (ic.1 + 1) ++ ext, ic.2))
          = (fun i => base ++ "-" ++ fmt02 (i + 1) ++ ext) ∘ Prod.fst := rfl
      rw [hfst, ← List.map_map, List.enum_map_fst, chunk_split_length _ hm]

/-- Witness for C9: a one-character upper-case datum is within the 4200
threshold and yields exactly one artifact under the original filename. -/
theorem qr_artifacts_spec_witness :
    write_and_verify_qr_code "a" ".png" ['X'] = [("a" ++ ".png", ['X'])] :=
  (qr_artifacts_spec "a" ".png" ['X']).2.2.1 (by decide)

/-!
Deposit flow (`deposit_interactive`, glacierscript.py lines 691-745).  The
external collaborators — `hash_sha256` (hashlib), WIF encoding (the base58
library), and the address resolution done through bitcoin-cli — enter the
embedding as function parameters.  The interactive seed-reading loop
re-prompts until validation passes; `seeds` supplies the accepted
(dice, rng) seed pair for each key index.  The function generates exactly
`n` keys (`while len(keys) < n`), resolves their addresses, and issues
`addmultisigaddress(m, addresses)` to the external signer; no comparison of
m against n appears anywhere on that path.
-/

/-- The request handed to `bitcoin-cli addmultisigaddress` (lines
380-389, 728-730): the required-signer count and the n resolved
addresses. -/
structure MultisigRequest where
  m : ℕ
  addresses : List String
deriving DecidableEq

/-- The key-generation loop (lines 710-723): for each of the n keys, hash
the dice seed and the rng seed, XOR the two digests, convert to WIF.
`none` models the Exception `xor_hex_strings` raises on digests of unequal
length (impossible for fixed-width sha256 digests). -/
def deposit_keys (hashFn wifEnc : String → String)
    (seeds : ℕ → String × String) (n : ℕ) : Option (List String) :=
  (List.range n).mapM (fun i =>
    (xor_hex_strings (hashFn (seeds i).1) (hashFn (seeds i).2)).map wifEnc)

/-- The multisig request issued by `deposit_interactive` (lines 728-730)
to the external signer: the m given on the command line, unchecked, and the
addresses of the n generated keys. -/
def deposit_request (hashFn wifEnc getAddr : String → String)
    (seeds : ℕ → String × String) (m n : ℕ) : Option MultisigRequest :=
  (deposit_keys hashFn wifEnc seeds n).map
    (fun keys => ⟨m, keys.map getAddr⟩)

theorem xor_hex_strings_isSome {a b : String} (ha : ValidHex a)
    (hb : ValidHex b) (hl : a.length = b.length) :
    (xor_hex_strings a b).isSome := by
  obtain ⟨x, hx⟩ := int16_valid ha
  obtain ⟨y, hy⟩ := int16_valid hb
  rw [xor_hex_strings_eq hl hx hy]
  rfl

theorem mapM_option_length {α β : Type} (f : α → Option β) :
    ∀ l : List α, (∀ a ∈ l, (f a).isSome) →
      ∃ ys, l.mapM f = some ys ∧ ys.length = l.length := by
  intro l
  induction l with
  | nil => exact fun _ => ⟨[], rfl, rfl⟩
  | cons a l ih =>
    intro h
    obtain ⟨b, hb⟩ := Option.isSome_iff_exists.mp (h a (by simp))
    obtain ⟨ys, hys, hl⟩ := ih (fun x hx => h x (by simp [hx]))
    refine ⟨b :: ys, ?_, by simp [hl]⟩
    rw [List.mapM_cons, hb, hys]
    rfl

/-- C8 counterexample: a 3-of-2 request (m = 3 > n = 2) is not rejected
anywhere before the external signer: key generation proceeds and the
`addmultisigaddress` request carrying m = 3 with 2 keys is produced and
handed to the external signer, whose error is the only thing that stops it.
(Instantiated with a constant two-character digest function so the request
is computable in closed form.) -/
theorem deposit_m_gt_n_not_rejected :
    deposit_request (fun _ => "00") id id (fun _ => ("d", "r")) 3 2
      = some ⟨3, ["00", "00"]⟩ := by decide

/-- C8 amended: `deposit_interactive` performs no local validation of
m ≤ n: for every m and n (including m > n), whenever the digest function
returns valid fixed-width hex digests, exactly n keys are generated and the
multisig request carrying the given m and the n addresses is issued to the
external signer; in particular a valid 1-of-2 request yields exactly 2
stored keys and m = 1, and an m=3, n=2 request is stopped only by the
external signer's own error, not before the call. -/
theorem deposit_request_spec (hashFn wifEnc getAddr : String → String)
    (seeds : ℕ → String × String) (m n : ℕ)
    (hvalid : ∀ s, ValidHex (hashFn s))
    (hlen : ∀ s t, (hashFn s).length = (hashFn t).length) :
    ∃ ks r, deposit_keys hashFn wifEnc seeds n = some ks ∧ ks.length = n ∧
      deposit_request hashFn wifEnc getAddr seeds m n = some r ∧
      r.m = m ∧ r.addresses.length = n := by
  obtain ⟨ks, hks, hkslen⟩ := mapM_option_length
    (fun i => (xor_hex_strings (hashFn (seeds i).1)
      (hashFn (seeds i).2)).map wifEnc) (List.range n)
    (by
      intro i _
      have h := xor_hex_strings_isSome (hvalid (seeds i).1)
        (hvalid (seeds i).2) (hlen _ _)
      obtain ⟨s, hs⟩ := Option.isSome_iff_exists.mp h
      simp [hs])
  have hkeys : deposit_keys hashFn wifEnc seeds n = some ks := hks
  refine ⟨ks, ⟨m, ks.map getAddr⟩, hkeys, ?_, ?_, rfl, ?_⟩
  · rw [hkslen, List.length_range]
  · unfold deposit_request
    rw [hkeys]
    rfl
  · simp only [List.length_map]
    rw [hkslen, List.length_range]

/-- Witness for C8 (amended) at a valid 1-of-2 request with a constant
two-character digest function: the request carries m = 1 and exactly two
stored keys. -/
theorem deposit_request_spec_witness :
    ∃ ks r, deposit_keys (fun _ => "00") id (fun _ => ("d", "r")) 2
        = some ks ∧ ks.length = 2 ∧
      deposit_request (fun _ => "00") id id (fun _ => ("d", "r")) 1 2
        = some r ∧ r.m = 1 ∧ r.addresses.length = 2 :=
  deposit_request_spec (fun _ => "00") id id (fun _ => ("d", "r")) 1 2
    (fun _ => show ValidHex "00" from ⟨by decide, by decide⟩)
    (fun _ _ => rfl)

end GlacierScript
